import Mathlib

/-!
Shallow embedding of the greenscreenmethod repository
(src/greenv7.py and src/api.py) and verification of its
natural-language specification.

External effects are modelled explicitly:
  - a directory listing is a list of `FileEntry` values carrying the
    outcome of probing each file for a duration (`none` models a failed
    probe);
  - the random shuffle is an arbitrary permutation of the listing,
    quantified over in the theorems;
  - Python floats are modelled as rationals;
  - subprocess exit codes and per-item conversion outcomes are fields of
    an environment record.
-/

/-- Python `int(x)` truncation toward zero of a rational
(used for `int(total_duration * frame_rate)` in `_parse_ffmpeg_progress`). -/
def pyTrunc (q : ℚ) : ℤ :=
  if q.num < 0 then -(((-q.num).toNat / q.den : ℕ) : ℤ)
  else ((q.num.toNat / q.den : ℕ) : ℤ)

/-! ### Section 1 / select_clips_for_duration (greenv7.py lines 149-177) -/

/-- A directory entry: file name plus the outcome of probing its duration
(`ffmpeg.probe` followed by `float(probe[...])`; `none` models the
exception path at greenv7.py line 172). -/
structure FileEntry where
  name : String
  probe : Option ℚ
deriving DecidableEq

/-- `f.lower().endswith(".mp4")` (greenv7.py line 158), at the character
level: lowercase every character and test for the `.mp4` suffix. -/
def isMp4Name (s : String) : Bool :=
  ((".mp4").toList).isSuffixOf (s.toList.map Char.toLower)

/-- The `.mp4` filter applied to the directory listing before shuffling
(greenv7.py line 158). -/
def mp4Listing (listing : List FileEntry) : List FileEntry :=
  listing.filter (fun e => isMp4Name e.name)

/-- A clip is eligible when its duration probe succeeds and the duration is
at least `min_clip_length` (greenv7.py lines 163-167). -/
def eligible (minLen : ℚ) (e : FileEntry) : Bool :=
  match e.probe with
  | none => false
  | some d => decide (minLen ≤ d)

/-- The probed duration of an entry (0 when the probe failed; only used on
entries whose probe succeeded). -/
def dur (e : FileEntry) : ℚ := e.probe.getD 0

/-- Sum of the probed durations of a list of entries. -/
def selectedSum (l : List FileEntry) : ℚ := (l.map dur).sum

/-- Combined duration of the eligible entries of a list. -/
def eligibleSum (minLen : ℚ) (l : List FileEntry) : ℚ :=
  selectedSum (l.filter (eligible minLen))

/-- The accumulation loop of `select_clips_for_duration`
(greenv7.py lines 161-171): walk the shuffled list, skip entries whose
probe failed or whose duration is below `min_clip_length`, append eligible
entries, and break as soon as the running total reaches the target. -/
def selectAux (target minLen : ℚ) : List FileEntry → ℚ → List FileEntry
  | [], _ => []
  | e :: rest, total =>
    match e.probe with
    | none => selectAux target minLen rest total
    | some d =>
      if minLen ≤ d then
        if target ≤ total + d then [e]
        else e :: selectAux target minLen rest (total + d)
      else selectAux target minLen rest total

/-- `select_clips_for_duration` (greenv7.py lines 149-177), taking the
already-shuffled `.mp4` listing as input; the shuffle itself is modelled
in the theorems as an arbitrary permutation of `mp4Listing listing`. -/
def select_clips_for_duration (shuffled : List FileEntry) (target : ℚ)
    (minLen : ℚ) : List FileEntry :=
  selectAux target minLen shuffled 0

/-! ### _parse_ffmpeg_progress (greenv7.py lines 180-211) -/

/-- Python `str.strip()`: drop leading and trailing whitespace
(greenv7.py line 196). -/
def pyStrip (l : List Char) : List Char :=
  ((l.dropWhile Char.isWhitespace).reverse.dropWhile Char.isWhitespace).reverse

/-- Numeric value of a digit string captured by `(\d+)`. -/
def digitsVal (ds : List Char) : ℕ :=
  ds.foldl (fun acc c => 10 * acc + (c.toNat - 48)) 0

/-- Match of the regex `frame=\s*(\d+)` anchored at the start of `l`:
the literal `frame=`, then any run of whitespace, then at least one digit
(the greedy capture). -/
def frameMatchAt (l : List Char) : Option ℕ :=
  if (("frame=").toList).isPrefixOf l then
    let rest := (l.drop 6).dropWhile Char.isWhitespace
    let ds := rest.takeWhile Char.isDigit
    if ds = [] then none else some (digitsVal ds)
  else none

/-- `re.search` for `frame=\s*(\d+)`: the match at the leftmost position
where the pattern matches (greenv7.py lines 190, 198). -/
def frameSearch : List Char → Option ℕ
  | [] => none
  | c :: rest =>
    match frameMatchAt (c :: rest) with
    | some n => some n
    | none => frameSearch rest

/-- The pattern as the specification sentence words it: `frame=` followed
immediately by digits (no intervening whitespace), anchored at the start. -/
def specFrameMatchAt (l : List Char) : Bool :=
  (("frame=").toList).isPrefixOf l &&
    (match l.drop 6 with
     | [] => false
     | c :: _ => c.isDigit)

/-- Search anywhere in the line for the specification-worded pattern
`frame=` immediately followed by a digit. -/
def specFrameSearch : List Char → Bool
  | [] => false
  | c :: rest => specFrameMatchAt (c :: rest) || specFrameSearch rest

/-- `total_frames = int(total_duration * frame_rate) if frame_rate > 0 else 0`
(greenv7.py line 193). -/
def totalFramesOf (totalDuration frameRate : ℚ) : ℤ :=
  if 0 < frameRate then pyTrunc (totalDuration * frameRate) else 0

/-- One rendered progress update: the current frame, the total frame count,
and the displayed percentage. -/
structure ProgressUpdate where
  currentFrame : ℕ
  totalFrames : ℤ
  percent : ℚ
deriving DecidableEq

/-- `progress_percent = (current_frame / total_frames) * 100 if total_frames > 0 else 0`
(greenv7.py lines 201-205). -/
def renderUpdate (tf : ℤ) (cf : ℕ) : ProgressUpdate :=
  { currentFrame := cf
    totalFrames := tf
    percent := if 0 < tf then (cf : ℚ) / (tf : ℚ) * 100 else 0 }

/-- `_parse_ffmpeg_progress` (greenv7.py lines 180-211): walk the stderr
lines; for each line, strip it and search for `frame=\s*(\d+)`; on a match
render one progress update. The return value is the list of rendered
updates in order. -/
def parse_ffmpeg_progress (lines : List String) (totalDuration frameRate : ℚ) :
    List ProgressUpdate :=
  let tf := totalFramesOf totalDuration frameRate
  lines.filterMap (fun line => (frameSearch (pyStrip line.toList)).map (renderUpdate tf))

/-! ### convert_video_format / convert_video_format_parallel
(greenv7.py lines 86-146) -/

/-- The output name `f"temp_clip_{i}.{target_format}"` for the i-th input
(greenv7.py line 130). -/
def tempName (i : ℕ) : String := ("temp_clip_") ++ (toString i) ++ (".mp4")

/-- `convert_video_format` (greenv7.py lines 86-115): the external encoder
either succeeds (the function returns the output file name) or exits
non-zero (the function returns `None`). The success of the invocation for
each item is a parameter of the model. -/
def convert_video_format (inputFile outputFile : String) (ok : Bool) :
    Option String :=
  if ok then some outputFile else none

/-- The completion store of the thread pool: tasks finish in an arbitrary
order `schedule` (a permutation of the submission indices), and each
completed future records its task's result, which depends only on the
task itself. -/
def completionStore (inputs : List String) (ok : ℕ → Bool) (schedule : List ℕ) :
    List (ℕ × Option String) :=
  (schedule.filter (fun i => i < inputs.length)).map
    (fun i => (i, convert_video_format (inputs.getD i ("")) (tempName i) (ok i)))

/-- `future.result()`: blocking read of the result recorded for future `i`. -/
def futureResult (store : List (ℕ × Option String)) (i : ℕ) : Option String :=
  match store.lookup i with
  | none => none
  | some r => r

/-- `convert_video_format_parallel` (greenv7.py lines 118-146): submit one
task per input in order (future `i`, output `temp_clip_i.mp4`), let the
pool complete them in an arbitrary order, then gather the results by
iterating the futures list in submission order, keeping the successes.
`maxWorkers` bounds the pool's concurrency and does not affect the results. -/
def convert_video_format_parallel (inputs : List String) (ok : ℕ → Bool)
    (schedule : List ℕ) (maxWorkers : ℕ) : List String :=
  let store := completionStore inputs ok schedule
  (List.range inputs.length).filterMap (fun i => futureResult store i)

/-- The submission-order result list: the i-th converted name when
conversion `i` succeeded, failures removed. -/
def canonicalConverted (n : ℕ) (ok : ℕ → Bool) : List String :=
  (List.range n).filterMap (fun i => if ok i then some (tempName i) else none)

/-- The concat-demuxer manifest written by `combine_videos_for_duration`
(greenv7.py lines 248-250): one `file '...'` line per converted clip, in
the order of the converted list. -/
def manifestLines (converted : List String) : List String :=
  converted.map (fun f =>
    ("file ") ++ String.singleton (Char.ofNat 39) ++ f ++ String.singleton (Char.ofNat 39))

/-! ### combine_green_screen_foreground_length (greenv7.py lines 301-368) -/

/-- The encoder invocation built by `combine_green_screen_foreground_length`:
the arguments of the `ffmpeg` command of greenv7.py lines 330-347, with the
two duration-valued arguments kept as rationals (both are rendered from
the same Python variable `foreground_duration`). -/
structure GSCmd where
  chromaKeyFilter : String
  trimEnd : ℚ
  mapOut : String
  mapAudio : String
  videoCodec : String
  preset : String
  crf : ℤ
  pixFmt : String
  audioCodec : String
  outDuration : ℚ
deriving DecidableEq

/-- `combine_green_screen_foreground_length` (greenv7.py lines 301-368) up
to the point where the encoder command is issued: `none` when a
precondition fails (missing foreground at line 310, missing background at
line 313, failed or unparseable ffprobe at lines 326-328 / 365) and
`some cmd` with the built command otherwise. -/
def combine_green_screen_foreground_length (fgExists bgExists : Bool)
    (probe : Option ℚ) (keyColor similarity presetVal : String) (crfVal : ℤ) :
    Option GSCmd :=
  if fgExists = false then none
  else if bgExists = false then none
  else
    match probe with
    | none => none
    | some d =>
      some
        { chromaKeyFilter := ("chromakey=") ++ keyColor ++ (":") ++ similarity
          trimEnd := d
          mapOut := ("[out]")
          mapAudio := ("0:a?")
          videoCodec := ("libx264")
          preset := presetVal
          crf := crfVal
          pixFmt := ("yuv420p")
          audioCodec := ("copy")
          outDuration := d }

/-! ### Pipeline orchestration (greenv7.py lines 214-292 and 376-443,
api.py lines 8-42) -/

/-- One pipeline stage, at the granularity the orchestrators sequence them. -/
inductive Stage where
  | probe
  | select
  | convert
  | concat
  | composite
deriving DecidableEq

/-- The external world of one pipeline run: file-existence facts, probe
outcomes, the shuffled clip listing, per-clip conversion outcomes, the
pool completion order, and the exit codes of the two encoder invocations. -/
structure Env where
  fgExists : Bool
  fgDuration : Option ℚ
  categoryExists : Bool
  shuffled : List FileEntry
  convOk : ℕ → Bool
  schedule : List ℕ
  concatExit : ℤ
  gsProbe : Option ℚ
  gsExit : ℤ

/-- `get_mp4_duration_mediainfo` (greenv7.py lines 15-54): `None` when the
file does not exist (line 31) or no duration track is found; the duration
otherwise. -/
def get_mp4_duration_mediainfo (env : Env) : Option ℚ :=
  if env.fgExists = false then none else env.fgDuration

/-- The clips selected by the background stage for foreground duration `d`
(greenv7.py line 222, with the default `min_clip_length = 2.0`). -/
def cliSelected (env : Env) (d : ℚ) : List FileEntry :=
  select_clips_for_duration env.shuffled d 2

/-- The converted clip list of the background stage (greenv7.py lines
229-238, passing `max_workers = min(8, len(input_files))`). -/
def cliConverted (env : Env) (d : ℚ) : List String :=
  convert_video_format_parallel ((cliSelected env d).map FileEntry.name)
    env.convOk env.schedule (min 8 (cliSelected env d).length)

/-- Outcome of one orchestrated sub-run: the stages it invoked, in order,
and whether it produced its artifact / reported success. -/
structure RunResult where
  stages : List Stage
  ok : Bool
deriving DecidableEq

/-- Outcome of the background-generation stage, with the pool bound it
passed to the parallel transcoder and the manifest it wrote. -/
structure BgRun where
  stages : List Stage
  produced : Bool
  poolBound : ℕ
  manifest : List String
deriving DecidableEq

/-- `combine_videos_for_duration` (greenv7.py lines 214-292): select clips
(abort if none), convert them in parallel (abort if none converted), write
the manifest and run the concat encoder; the output file exists exactly
when that invocation exits 0. -/
def combine_videos_run (env : Env) (d : ℚ) : BgRun :=
  if cliSelected env d = [] then ⟨[Stage.select], false, 0, []⟩
  else if cliConverted env d = [] then
    ⟨[Stage.select, Stage.convert], false, min 8 (cliSelected env d).length, []⟩
  else
    ⟨[Stage.select, Stage.convert, Stage.concat], decide (env.concatExit = 0),
      min 8 (cliSelected env d).length, manifestLines (cliConverted env d)⟩

/-- The compositing stage as the orchestrators run it: the stage is
invoked; the final output exists exactly when the command could be built
(both inputs exist and ffprobe succeeded) and the encoder exited 0
(greenv7.py lines 349-361). -/
def green_screen_run (env : Env) (bgProduced : Bool) : RunResult :=
  ⟨[Stage.composite],
    (combine_green_screen_foreground_length env.fgExists bgProduced env.gsProbe
        ("0x00FF00") ("0.3") ("veryfast") 23).isSome && decide (env.gsExit = 0)⟩

/-- `main` (greenv7.py lines 376-443): abort if the chosen category is
missing; probe the foreground (abort on `None`); generate the background
(abort if its file was not produced); composite; report success exactly
when the final output exists. -/
def cli_main (env : Env) : RunResult :=
  if env.categoryExists = false then ⟨[], false⟩
  else
    match get_mp4_duration_mediainfo env with
    | none => ⟨[Stage.probe], false⟩
    | some d =>
      let bg := combine_videos_run env d
      if bg.produced = false then ⟨Stage.probe :: bg.stages, false⟩
      else
        let gs := green_screen_run env true
        ⟨Stage.probe :: bg.stages ++ gs.stages, gs.ok⟩

/-- `generate_final_video` (api.py lines 8-42): probe the foreground and
return an error response on `None`; otherwise run background generation
and compositing unconditionally and return the success response
unconditionally. -/
def api_generate (env : Env) : RunResult :=
  match get_mp4_duration_mediainfo env with
  | none => ⟨[Stage.probe], false⟩
  | some d =>
    let bg := combine_videos_run env d
    let gs := green_screen_run env bg.produced
    ⟨Stage.probe :: bg.stages ++ gs.stages, true⟩

/-! ### Thread pool admission (ThreadPoolExecutor, greenv7.py line 128) -/

/-- Modelled from the spec: the repository delegates parallelism to a
"bounded thread pool" ("parallelism is a bounded thread pool invoking an
external binary per item"); the pool implementation itself is not in the
repository. Its state is the set of task indices whose encoder invocation
is currently running. -/
structure PoolState where
  running : Finset ℕ
deriving DecidableEq

/-- Modelled from the spec: a bounded pool with bound `k` may start a
pending task only while fewer than `k` tasks are running, and may finish
any running task. -/
inductive poolStep (k : ℕ) : PoolState → PoolState → Prop
  | start (i : ℕ) (s : PoolState) (hi : i ∉ s.running) (hk : s.running.card < k) :
      poolStep k s ⟨insert i s.running⟩
  | finish (i : ℕ) (s : PoolState) (hi : i ∈ s.running) :
      poolStep k s ⟨s.running.erase i⟩

/-- States reachable from the idle pool. -/
def poolReachable (k : ℕ) (s : PoolState) : Prop :=
  Relation.ReflTransGen (poolStep k) ⟨∅⟩ s

/-! ### generate_variables (greenv7.py lines 63-83) -/

/-- A Python argument value for `generate_variables`: an `int` (which is
what `isinstance(num_vars, int)` accepts) or any non-`int` value. -/
inductive PyVal where
  | int (n : ℤ)
  | nonInt
deriving DecidableEq

/-- `random.randint(1, 99)` at the `idx`-th draw of the pseudo-random
stream `rand`. -/
def randintAt (rand : ℕ → ℕ) (idx : ℕ) : ℕ := rand idx % 99 + 1

/-- The `while True` retry loop of `generate_variables` (greenv7.py lines
77-82): draw numbers from the stream until one not yet used appears.
`fuel` bounds the number of draws inspected; the theorems show that for a
fair stream some finite fuel always suffices. Returns the fresh number and
the next draw index. -/
def pickFresh (rand : ℕ → ℕ) (used : List ℕ) : ℕ → ℕ → Option (ℕ × ℕ)
  | 0, _ => none
  | fuel + 1, idx =>
    let r := randintAt rand idx
    if r ∈ used then pickFresh rand used fuel (idx + 1)
    else some (r, idx + 1)

/-- The dictionary key `f"var_{i}"`. -/
def varName (i : ℕ) : String := ("var_") ++ toString i

/-- The `for i in range(1, num_vars + 1)` loop of `generate_variables`
(greenv7.py lines 75-82), building the insertion-ordered dictionary as an
association list; `cnt` counts the variables still to generate, `i` is the
current loop counter, `used` the set of numbers generated so far. -/
def genVarsAux (rand : ℕ → ℕ) (fuel : ℕ) :
    ℕ → ℕ → ℕ → List ℕ → Option (List (String × ℕ))
  | 0, _, _, _ => some []
  | cnt + 1, i, idx, used =>
    match pickFresh rand used fuel idx with
    | none => none
    | some (r, idx2) =>
      (genVarsAux rand fuel cnt (i + 1) idx2 (r :: used)).map
        (fun rest => (varName i, r) :: rest)

/-- `generate_variables` (greenv7.py lines 63-83). The two `ValueError`
paths are the `Except.error` results; `none` models a run whose retry
loops exceed `fuel` draws (for a fair random stream the theorems produce a
sufficient fuel). -/
def generate_variables (v : PyVal) (rand : ℕ → ℕ) (fuel : ℕ) :
    Option (Except String (List (String × ℕ))) :=
  match v with
  | PyVal.nonInt => some (Except.error ("num_vars must be a positive integer"))
  | PyVal.int n =>
    if n < 1 then some (Except.error ("num_vars must be a positive integer"))
    else if 99 < n then
      some (Except.error ("num_vars cannot be greater than 99, to ensure unique numbers between 1 and 99"))
    else (genVarsAux rand fuel n.toNat 1 0 []).map Except.ok

/-- A fair pseudo-random stream: every value of the sampled range keeps
appearing. Python's generator satisfies this along any actual run. -/
def FairStream (rand : ℕ → ℕ) : Prop :=
  ∀ v : ℕ, 1 ≤ v → v ≤ 99 → ∀ m : ℕ, ∃ j : ℕ, m ≤ j ∧ randintAt rand j = v

/-! ## Theorems -/

theorem selectedSum_nil : selectedSum [] = 0 := rfl

theorem selectedSum_cons (e : FileEntry) (l : List FileEntry) :
    selectedSum (e :: l) = dur e + selectedSum l := by
  simp [selectedSum]

theorem eligibleSum_nil (minLen : ℚ) : eligibleSum minLen [] = 0 := rfl

theorem eligibleSum_cons_neg (minLen : ℚ) (e : FileEntry) (l : List FileEntry)
    (h : eligible minLen e = false) :
    eligibleSum minLen (e :: l) = eligibleSum minLen l := by
  simp [eligibleSum, List.filter_cons, h]

theorem eligibleSum_cons_pos (minLen : ℚ) (e : FileEntry) (l : List FileEntry)
    (h : eligible minLen e = true) :
    eligibleSum minLen (e :: l) = dur e + eligibleSum minLen l := by
  simp [eligibleSum, List.filter_cons, h, selectedSum_cons]

theorem eligibleSum_perm (minLen : ℚ) {l₁ l₂ : List FileEntry}
    (h : l₁.Perm l₂) : eligibleSum minLen l₁ = eligibleSum minLen l₂ :=
  ((h.filter (eligible minLen)).map dur).sum_eq

/-- The accumulation loop reaches the target and stops as soon as it does,
provided the target still lies ahead of the running total and the eligible
remainder can cover the gap. -/
theorem selectAux_reaches (target minLen : ℚ) :
    ∀ (l : List FileEntry) (total : ℚ), total < target →
      target ≤ total + eligibleSum minLen l →
      target ≤ total + selectedSum (selectAux target minLen l total) ∧
      total + selectedSum ((selectAux target minLen l total).dropLast) < target := by
  intro l
  induction l with
  | nil =>
    intro total hlt hsum
    rw [eligibleSum_nil, add_zero] at hsum
    exact absurd hsum (not_le.mpr hlt)
  | cons e rest ih =>
    intro total hlt hsum
    cases hp : e.probe with
    | none =>
      have he : eligible minLen e = false := by simp [eligible, hp]
      rw [eligibleSum_cons_neg _ _ _ he] at hsum
      simpa [selectAux, hp] using ih total hlt hsum
    | some d =>
      by_cases hd : minLen ≤ d
      · have he : eligible minLen e = true := by simp [eligible, hp, hd]
        have hdur : dur e = d := by simp [dur, hp]
        rw [eligibleSum_cons_pos _ _ _ he, hdur] at hsum
        by_cases hstop : target ≤ total + d
        · refine ⟨?_, ?_⟩
          · simp [selectAux, hp, hd, hstop, selectedSum_cons, hdur,
              selectedSum_nil]
          · simpa [selectAux, hp, hd, hstop, List.dropLast, selectedSum_nil]
              using hlt
        · have hlt2 : total + d < target := not_le.mp hstop
          have hsum2 : target ≤ total + d + eligibleSum minLen rest := by
            linarith
          obtain ⟨hA, hB⟩ := ih (total + d) hlt2 hsum2
          have hout : selectAux target minLen (e :: rest) total
              = e :: selectAux target minLen rest (total + d) := by
            simp [selectAux, hp, hd, hstop]
          refine ⟨?_, ?_⟩
          · rw [hout, selectedSum_cons, hdur]
            linarith
          · rw [hout]
            cases hr : selectAux target minLen rest (total + d) with
            | nil =>
              simpa [List.dropLast, selectedSum_nil] using hlt
            | cons x xs =>
              rw [hr] at hB
              rw [List.dropLast_cons₂, selectedSum_cons, hdur]
              linarith
      · have he : eligible minLen e = false := by simp [eligible, hp, hd]
        rw [eligibleSum_cons_neg _ _ _ he] at hsum
        simpa [selectAux, hp, hd] using ih total hlt hsum

/-- The selected clips are an initial segment of the eligible entries of
the walked list, in order. -/
theorem selectAux_prefix (target minLen : ℚ) :
    ∀ (l : List FileEntry) (total : ℚ),
      selectAux target minLen l total <+: l.filter (eligible minLen) := by
  intro l
  induction l with
  | nil => intro total; simp [selectAux]
  | cons e rest ih =>
    intro total
    cases hp : e.probe with
    | none =>
      have he : eligible minLen e = false := by simp [eligible, hp]
      simpa [selectAux, hp, List.filter_cons, he] using ih total
    | some d =>
      by_cases hd : minLen ≤ d
      · have he : eligible minLen e = true := by simp [eligible, hp, hd]
        by_cases hstop : target ≤ total + d
        · refine ⟨rest.filter (eligible minLen), ?_⟩
          simp [selectAux, hp, hd, hstop, List.filter_cons, he]
        · obtain ⟨t, ht⟩ := ih (total + d)
          refine ⟨t, ?_⟩
          simp [selectAux, hp, hd, hstop, List.filter_cons, he, ht]
      · have he : eligible minLen e = false := by simp [eligible, hp, hd]
        simpa [selectAux, hp, hd, List.filter_cons, he] using ih total

/-- C1 (amended): for a positive target duration, if the eligible clips of
the directory listing (those whose probe succeeds with duration at least
`min_clip_length`) have combined duration at least the target, then the
durations of the clips returned by `select_clips_for_duration` sum to at
least the target, and the sum of all returned clips except the last one is
strictly below the target. -/
theorem c1_select_reaches_target (listing shuffled : List FileEntry)
    (target minLen : ℚ) (hperm : shuffled.Perm (mp4Listing listing))
    (hpos : 0 < target)
    (hsum : target ≤ eligibleSum minLen (mp4Listing listing)) :
    target ≤ selectedSum (select_clips_for_duration shuffled target minLen) ∧
    selectedSum ((select_clips_for_duration shuffled target minLen).dropLast)
      < target := by
  have hs : eligibleSum minLen shuffled = eligibleSum minLen (mp4Listing listing) :=
    eligibleSum_perm minLen hperm
  have h := selectAux_reaches target minLen shuffled 0 hpos
    (by rw [zero_add, hs]; exact hsum)
  simpa [select_clips_for_duration] using h

/-- C1 witness: a directory with one 5-second clip and target 3. -/
theorem c1_select_reaches_target_witness :
    (3 : ℚ) ≤ selectedSum (select_clips_for_duration [⟨"a.mp4", some 5⟩] 3 2) ∧
    selectedSum ((select_clips_for_duration [⟨"a.mp4", some 5⟩] 3 2).dropLast)
      < 3 := by
  have hmp4 : mp4Listing [⟨"a.mp4", some 5⟩] = [⟨"a.mp4", some 5⟩] := by decide
  refine c1_select_reaches_target [⟨"a.mp4", some 5⟩] [⟨"a.mp4", some 5⟩] 3 2
    ?_ (by norm_num) ?_
  · rw [hmp4]
  · rw [hmp4]
    norm_num [eligibleSum, selectedSum, eligible, dur, List.filter]

/-- C1 counterexample to the claim as stated: at target duration 0 with an
empty directory the eligible clips trivially cover the target and the
selection is empty, yet the sum of all returned clips but the last (an
empty sum) is not strictly below the target. -/
theorem c1_counterexample :
    (0 : ℚ) ≤ eligibleSum 2 (mp4Listing []) ∧
    List.Perm ([] : List FileEntry) (mp4Listing []) ∧
    select_clips_for_duration [] 0 2 = [] ∧
    ¬ selectedSum ((select_clips_for_duration [] 0 2).dropLast) < 0 := by
  refine ⟨le_refl 0, List.Perm.refl _, rfl, ?_⟩
  simp [select_clips_for_duration, selectAux, selectedSum_nil]

/-- C3 (amended): the clips returned by `select_clips_for_duration` form a
contiguous initial segment of the eligible candidates (those whose probe
succeeds with duration at least `min_clip_length`) of the shuffled `.mp4`
listing, in shuffled order; candidates that fail the probe or are too
short are skipped, so the selection is in general not a contiguous initial
segment of the full shuffled list. -/
theorem c3_selected_initial_of_eligible (shuffled : List FileEntry)
    (target minLen : ℚ) :
    select_clips_for_duration shuffled target minLen <+:
      shuffled.filter (eligible minLen) :=
  selectAux_prefix target minLen shuffled 0

/-- C3 counterexample to the claim as stated: with a shuffled listing
holding a 1-second clip then a 5-second clip (minimum length 2, target 3),
the 1-second candidate is skipped, so the selection is not an initial
segment of the shuffled candidate list. -/
theorem c3_counterexample :
    List.Perm [(⟨"a.mp4", some 1⟩ : FileEntry), ⟨"b.mp4", some 5⟩]
      (mp4Listing [⟨"a.mp4", some 1⟩, ⟨"b.mp4", some 5⟩]) ∧
    select_clips_for_duration [⟨"a.mp4", some 1⟩, ⟨"b.mp4", some 5⟩] 3 2
      = [⟨"b.mp4", some 5⟩] ∧
    ¬ select_clips_for_duration [⟨"a.mp4", some 1⟩, ⟨"b.mp4", some 5⟩] 3 2
        <+: [(⟨"a.mp4", some 1⟩ : FileEntry), ⟨"b.mp4", some 5⟩] := by
  have hmp4 : mp4Listing [(⟨"a.mp4", some 1⟩ : FileEntry), ⟨"b.mp4", some 5⟩]
      = [⟨"a.mp4", some 1⟩, ⟨"b.mp4", some 5⟩] := by decide
  have hsel : select_clips_for_duration [⟨"a.mp4", some 1⟩, ⟨"b.mp4", some 5⟩] 3 2
      = [⟨"b.mp4", some 5⟩] := by
    norm_num [select_clips_for_duration, selectAux]
  refine ⟨by rw [hmp4], hsel, ?_⟩
  rw [hsel]
  rintro ⟨t, ht⟩
  simp only [List.cons_append] at ht
  have := List.head_eq_of_cons_eq ht
  simp at this

/-- C5 (amended): the progress reporter renders one update exactly for
each diagnostic line containing `frame=` followed by optional whitespace
and at least one digit (the regex `frame=\s*(\d+)`), in line order; when
`frame_rate > 0` and the resulting total frame count is positive, each
update reports the captured frame count out of
`int(total_duration * frame_rate)` total frames, and the displayed
percentage is `current_frame / total_frames * 100`. -/
theorem c5_progress_updates (lines : List String) (totalDuration frameRate : ℚ)
    (hrate : 0 < frameRate)
    (htf : 0 < totalFramesOf totalDuration frameRate) :
    parse_ffmpeg_progress lines totalDuration frameRate
      = (lines.filterMap (fun line => frameSearch (pyStrip line.toList))).map
          (renderUpdate (totalFramesOf totalDuration frameRate)) ∧
    ∀ u ∈ parse_ffmpeg_progress lines totalDuration frameRate,
      u.totalFrames = pyTrunc (totalDuration * frameRate) ∧
      u.percent = (u.currentFrame : ℚ) / (u.totalFrames : ℚ) * 100 := by
  constructor
  · simp [parse_ffmpeg_progress, List.map_filterMap]
  · intro u hu
    simp only [parse_ffmpeg_progress, List.mem_filterMap] at hu
    obtain ⟨line, _, hline⟩ := hu
    obtain ⟨cf, _, hcf⟩ := Option.map_eq_some'.mp hline
    subst hcf
    have htf2 : totalFramesOf totalDuration frameRate
        = pyTrunc (totalDuration * frameRate) := by
      simp [totalFramesOf, hrate]
    constructor
    · simpa [renderUpdate] using htf2
    · simp [renderUpdate, htf]

/-- C5 witness: the line `frame=7` at duration 10 and frame rate 3 renders
the update 7 of 30 frames at 70/3 percent. -/
theorem c5_progress_updates_witness :
    (⟨7, 30, 70/3⟩ : ProgressUpdate).totalFrames = pyTrunc ((10 : ℚ) * 3) ∧
    (⟨7, 30, 70/3⟩ : ProgressUpdate).percent
      = (((⟨7, 30, 70/3⟩ : ProgressUpdate).currentFrame : ℚ))
          / (((⟨7, 30, 70/3⟩ : ProgressUpdate).totalFrames : ℚ)) * 100 := by
  have hsearch : frameSearch (pyStrip (("frame=7").data)) = some 7 := by decide
  have htf : totalFramesOf 10 3 = 30 := by norm_num [totalFramesOf, pyTrunc]
  have hmem : (⟨7, 30, 70/3⟩ : ProgressUpdate)
      ∈ parse_ffmpeg_progress [("frame=7")] 10 3 := by
    have : parse_ffmpeg_progress [("frame=7")] 10 3 = [⟨7, 30, 70/3⟩] := by
      simp [parse_ffmpeg_progress, hsearch, htf, renderUpdate]
      norm_num
    rw [this]
    exact List.mem_singleton.mpr rfl
  exact (c5_progress_updates [("frame=7")] 10 3 (by norm_num)
    (by rw [htf]; norm_num)).2 _ hmem

/-- C5 counterexample to the claim as stated: the line `frame= 42` (a
space between `frame=` and the digits, as the encoder actually prints)
contains no occurrence of `frame=` immediately followed by a digit, yet
the reporter renders an update for it. -/
theorem c5_counterexample :
    parse_ffmpeg_progress [("frame= 42")] 10 3 = [⟨42, 30, 140⟩] ∧
    specFrameSearch (("frame= 42").data) = false := by
  constructor
  · have h1 : frameSearch (pyStrip (("frame= 42").data)) = some 42 := by decide
    have h2 : totalFramesOf 10 3 = 30 := by norm_num [totalFramesOf, pyTrunc]
    simp [parse_ffmpeg_progress, h2, h1, renderUpdate]
    norm_num
  · decide

/-- C10: the percentage computation is guarded: whenever the computed
total frame count is 0 — in particular when `frame_rate ≤ 0` or
`total_duration = 0` — every rendered update reports a progress percentage
of 0 instead of dividing by zero. -/
theorem c10_percent_guard (lines : List String) (totalDuration frameRate : ℚ) :
    (frameRate ≤ 0 → totalFramesOf totalDuration frameRate = 0) ∧
    (totalDuration = 0 → totalFramesOf totalDuration frameRate = 0) ∧
    (totalFramesOf totalDuration frameRate = 0 →
      ∀ u ∈ parse_ffmpeg_progress lines totalDuration frameRate,
        u.percent = 0) := by
  refine ⟨?_, ?_, ?_⟩
  · intro h
    simp [totalFramesOf, not_lt.mpr h]
  · intro h
    subst h
    simp [totalFramesOf, pyTrunc]
  · intro htf u hu
    simp only [parse_ffmpeg_progress, List.mem_filterMap] at hu
    obtain ⟨line, _, hline⟩ := hu
    obtain ⟨cf, _, hcf⟩ := Option.map_eq_some'.mp hline
    subst hcf
    simp [renderUpdate, htf]

/-- C10 witness: at frame rate 0 the single update for `frame=5` carries
percentage 0. -/
theorem c10_percent_guard_witness :
    (⟨5, 0, 0⟩ : ProgressUpdate) ∈ parse_ffmpeg_progress [("frame=5")] 7 0 ∧
    (⟨5, 0, 0⟩ : ProgressUpdate).percent = 0 := by
  have hsearch : frameSearch (pyStrip (("frame=5").data)) = some 5 := by decide
  have htf : totalFramesOf 7 0 = 0 := by norm_num [totalFramesOf]
  have hmem : (⟨5, 0, 0⟩ : ProgressUpdate)
      ∈ parse_ffmpeg_progress [("frame=5")] 7 0 := by
    have : parse_ffmpeg_progress [("frame=5")] 7 0 = [⟨5, 0, 0⟩] := by
      simp [parse_ffmpeg_progress, hsearch, htf, renderUpdate]
    rw [this]
    exact List.mem_singleton.mpr rfl
  exact ⟨hmem, (c10_percent_guard [("frame=5")] 7 0).2.2 htf _ hmem⟩

/-- C2: when both the foreground and the background file exist and the
foreground probe yields a duration, the compositor builds its encoder
command with the background trim filter's `end` equal to the probed
foreground duration and with the output-duration (`-t`) argument equal to
that same probed duration. -/
theorem c2_trim_to_foreground (fgExists bgExists : Bool) (probe : Option ℚ)
    (keyColor similarity presetVal : String) (crfVal : ℤ) (d : ℚ)
    (hfg : fgExists = true) (hbg : bgExists = true) (hprobe : probe = some d) :
    ∃ cmd : GSCmd,
      combine_green_screen_foreground_length fgExists bgExists probe
        keyColor similarity presetVal crfVal = some cmd ∧
      cmd.trimEnd = d ∧ cmd.outDuration = d := by
  subst hfg hbg hprobe
  exact ⟨_, rfl, rfl, rfl⟩

/-- C2 witness: existing inputs with a probed duration of 12 seconds. -/
theorem c2_trim_to_foreground_witness :
    ∃ cmd : GSCmd,
      combine_green_screen_foreground_length true true (some 12)
        ("0x00FF00") ("0.3") ("veryfast") 23 = some cmd ∧
      cmd.trimEnd = 12 ∧ cmd.outDuration = 12 :=
  c2_trim_to_foreground true true (some 12) ("0x00FF00") ("0.3") ("veryfast")
    23 12 rfl rfl rfl

/-- C6: in both orchestrators the foreground duration probe is the first
stage of any run that performs a stage at all, and when the probe returns
`None` neither clip selection, transcoding, concatenation, nor compositing
is ever invoked in that run. -/
theorem c6_probe_first (env : Env) :
    ((cli_main env).stages = [] ∨
      (cli_main env).stages.head? = some Stage.probe) ∧
    (api_generate env).stages.head? = some Stage.probe ∧
    (get_mp4_duration_mediainfo env = none →
      Stage.select ∉ (cli_main env).stages ∧
      Stage.convert ∉ (cli_main env).stages ∧
      Stage.concat ∉ (cli_main env).stages ∧
      Stage.composite ∉ (cli_main env).stages) ∧
    (get_mp4_duration_mediainfo env = none →
      Stage.select ∉ (api_generate env).stages ∧
      Stage.convert ∉ (api_generate env).stages ∧
      Stage.concat ∉ (api_generate env).stages ∧
      Stage.composite ∉ (api_generate env).stages) := by
  by_cases hcat : env.categoryExists = false
  · cases hprobe : get_mp4_duration_mediainfo env with
    | none => simp [cli_main, api_generate, hcat, hprobe]
    | some d => simp [cli_main, api_generate, hcat, hprobe]
  · cases hprobe : get_mp4_duration_mediainfo env with
    | none => simp [cli_main, api_generate, hcat, hprobe]
    | some d =>
      refine ⟨?_, ?_, by simp [hprobe], by simp [hprobe]⟩
      · right
        have hcat2 : env.categoryExists = true := by
          revert hcat; cases env.categoryExists <;> simp
        simp only [cli_main, hcat2, hprobe]
        rw [if_neg (by simp)]
        split <;> simp
      · simp [api_generate, hprobe]

/-- C6 witness: a run whose foreground file is missing performs the probe
stage and nothing else. -/
theorem c6_probe_first_witness :
    (api_generate ⟨false, none, true, [], fun _ => true, [], 0, none, 0⟩).stages.head?
      = some Stage.probe ∧
    Stage.composite ∉
      (cli_main ⟨false, none, true, [], fun _ => true, [], 0, none, 0⟩).stages ∧
    Stage.select ∉
      (api_generate ⟨false, none, true, [], fun _ => true, [], 0, none, 0⟩).stages := by
  have h := c6_probe_first ⟨false, none, true, [], fun _ => true, [], 0, none, 0⟩
  exact ⟨h.2.1, (h.2.2.1 rfl).2.2.2, (h.2.2.2 rfl).1⟩

/-- C4 (amended): the CLI pipeline stops at the first failing stage: it
reports no success and invokes no later stage when the probe fails, when
no clips are selected, when no clip converts, when the concat encoder
exits non-zero, or when the compositing encoder exits non-zero. The HTTP
endpoint stops only for a failed duration probe; after a failed background
generation it still invokes the compositing stage and it reports success
whenever the probe succeeded. -/
theorem c4_stop_on_failure (env : Env) :
    (get_mp4_duration_mediainfo env = none →
      (cli_main env).ok = false ∧ Stage.select ∉ (cli_main env).stages) ∧
    (∀ d : ℚ, get_mp4_duration_mediainfo env = some d →
      (cliSelected env d = [] →
        (cli_main env).ok = false ∧
        Stage.convert ∉ (cli_main env).stages ∧
        Stage.concat ∉ (cli_main env).stages ∧
        Stage.composite ∉ (cli_main env).stages) ∧
      (cliConverted env d = [] →
        (cli_main env).ok = false ∧
        Stage.concat ∉ (cli_main env).stages ∧
        Stage.composite ∉ (cli_main env).stages) ∧
      (¬ env.concatExit = 0 →
        (cli_main env).ok = false ∧
        Stage.composite ∉ (cli_main env).stages) ∧
      (¬ env.gsExit = 0 → (cli_main env).ok = false)) ∧
    (∀ d : ℚ, get_mp4_duration_mediainfo env = some d →
      (api_generate env).ok = true ∧
      Stage.composite ∈ (api_generate env).stages) ∧
    (get_mp4_duration_mediainfo env = none →
      (api_generate env).ok = false ∧
      Stage.select ∉ (api_generate env).stages) := by
  by_cases hcat : env.categoryExists = false
  · refine ⟨?_, ?_, ?_, ?_⟩
    · intro hprobe
      simp [cli_main, hcat]
    · intro d hprobe
      simp [cli_main, hcat]
    · intro d hprobe
      simp [api_generate, hprobe, green_screen_run]
    · intro hprobe
      simp [api_generate, hprobe]
  · have hcat2 : env.categoryExists = true := by
      revert hcat; cases env.categoryExists <;> simp
    refine ⟨?_, ?_, ?_, ?_⟩
    · intro hprobe
      simp [cli_main, hcat2, hprobe]
    · intro d hprobe
      refine ⟨?_, ?_, ?_, ?_⟩
      · intro hsel
        simp [cli_main, hcat2, hprobe, combine_videos_run, hsel]
      · intro hconv
        by_cases hsel : cliSelected env d = []
        · simp [cli_main, hcat2, hprobe, combine_videos_run, hsel]
        · simp [cli_main, hcat2, hprobe, combine_videos_run, hsel, hconv]
      · intro hconcat
        by_cases hsel : cliSelected env d = []
        · simp [cli_main, hcat2, hprobe, combine_videos_run, hsel]
        · by_cases hconv : cliConverted env d = []
          · simp [cli_main, hcat2, hprobe, combine_videos_run, hsel, hconv]
          · simp [cli_main, hcat2, hprobe, combine_videos_run, hsel, hconv,
              hconcat]
      · intro hgs
        by_cases hsel : cliSelected env d = []
        · simp [cli_main, hcat2, hprobe, combine_videos_run, hsel]
        · by_cases hconv : cliConverted env d = []
          · simp [cli_main, hcat2, hprobe, combine_videos_run, hsel, hconv]
          · by_cases hconcat : env.concatExit = 0
            · simp [cli_main, hcat2, hprobe, combine_videos_run, hsel, hconv,
                hconcat, green_screen_run, hgs]
            · simp [cli_main, hcat2, hprobe, combine_videos_run, hsel, hconv,
                hconcat]
    · intro d hprobe
      refine ⟨by simp [api_generate, hprobe], ?_⟩
      simp [api_generate, hprobe, green_screen_run]
    · intro hprobe
      simp [api_generate, hprobe]

/-- C4 witness: an empty clips directory with a valid 5-second foreground.
The CLI run fails after selection and never converts; the HTTP endpoint
still composites and still reports success. -/
theorem c4_stop_on_failure_witness :
    (cli_main ⟨true, some 5, true, [], fun _ => true, [], 0, some 5, 0⟩).ok
        = false ∧
    Stage.convert ∉
      (cli_main ⟨true, some 5, true, [], fun _ => true, [], 0, some 5, 0⟩).stages ∧
    (api_generate ⟨true, some 5, true, [], fun _ => true, [], 0, some 5, 0⟩).ok
        = true ∧
    Stage.composite ∈
      (api_generate ⟨true, some 5, true, [], fun _ => true, [], 0, some 5, 0⟩).stages := by
  have h := c4_stop_on_failure ⟨true, some 5, true, [], fun _ => true, [], 0, some 5, 0⟩
  have hsel : cliSelected ⟨true, some 5, true, [], fun _ => true, [], 0, some 5, 0⟩ 5
      = [] := rfl
  obtain ⟨h1, h2, h3⟩ := (h.2.1 5 rfl).1 hsel
  obtain ⟨h4, h5⟩ := h.2.2.1 5 rfl
  exact ⟨h1, h2, h4, h5⟩

/-- C4 counterexample to the claim as stated: with an empty clips
directory the clip-selection stage of the HTTP endpoint fails (no clips
selected), yet the endpoint still invokes the compositing stage and still
reports success. -/
theorem c4_counterexample :
    cliSelected ⟨true, some 5, true, [], fun _ => true, [], 0, some 5, 0⟩ 5
        = [] ∧
    (api_generate ⟨true, some 5, true, [], fun _ => true, [], 0, some 5, 0⟩).ok
        = true ∧
    Stage.composite ∈
      (api_generate ⟨true, some 5, true, [], fun _ => true, [], 0, some 5, 0⟩).stages := by
  refine ⟨rfl, rfl, ?_⟩
  simp [api_generate, combine_videos_run, cliSelected, select_clips_for_duration,
    selectAux, get_mp4_duration_mediainfo, green_screen_run]

theorem lookup_map_key (g : ℕ → Option String) (l : List ℕ) (i : ℕ)
    (hi : i ∈ l) :
    (l.map (fun j => (j, g j))).lookup i = some (g i) := by
  induction l with
  | nil => cases hi
  | cons a l ih =>
    by_cases hia : i = a
    · subst hia
      simp [List.lookup]
    · have hil : i ∈ l := by
        cases hi with
        | head => exact absurd rfl hia
        | tail _ h => exact h
      have hbeq : (i == a) = false := beq_eq_false_iff_ne.mpr hia
      simpa [List.lookup, hbeq] using ih hil

theorem futureResult_completionStore (inputs : List String) (ok : ℕ → Bool)
    (schedule : List ℕ) (i : ℕ) (hi : i ∈ schedule) (hn : i < inputs.length) :
    futureResult (completionStore inputs ok schedule) i
      = (if ok i then some (tempName i) else none) := by
  have hif : i ∈ schedule.filter (fun j => decide (j < inputs.length)) :=
    List.mem_filter.mpr ⟨hi, by simpa using hn⟩
  have := lookup_map_key
    (fun j => convert_video_format (inputs.getD j ("")) (tempName j) (ok j))
    (schedule.filter (fun j => decide (j < inputs.length))) i hif
  simp only [completionStore, futureResult]
  rw [this]
  rfl

/-- C8: the parallel transcoder returns the converted outputs in
submission (selection) order with failed conversions removed, for every
completion order of the pool, and the concatenation manifest therefore
lists the converted clips in selection order. -/
theorem c8_converted_order (inputs : List String) (ok : ℕ → Bool)
    (schedule : List ℕ) (maxWorkers : ℕ)
    (hperm : schedule.Perm (List.range inputs.length)) :
    convert_video_format_parallel inputs ok schedule maxWorkers
      = canonicalConverted inputs.length ok ∧
    manifestLines (convert_video_format_parallel inputs ok schedule maxWorkers)
      = manifestLines (canonicalConverted inputs.length ok) := by
  have hmain : convert_video_format_parallel inputs ok schedule maxWorkers
      = canonicalConverted inputs.length ok := by
    unfold convert_video_format_parallel canonicalConverted
    refine List.filterMap_congr ?_
    intro i hi
    have hn : i < inputs.length := List.mem_range.mp hi
    have hs : i ∈ schedule := hperm.mem_iff.mpr hi
    exact futureResult_completionStore inputs ok schedule i hs hn
  exact ⟨hmain, by rw [hmain]⟩

/-- C8 witness: two clips whose conversions complete in reverse order,
with the second conversion failing; the gathered list is the first output
alone, in submission order. -/
theorem c8_converted_order_witness :
    convert_video_format_parallel [("x.mp4"), ("y.mp4")] (fun i => i == 0)
        [1, 0] 8
      = canonicalConverted 2 (fun i => i == 0) ∧
    manifestLines
        (convert_video_format_parallel [("x.mp4"), ("y.mp4")] (fun i => i == 0)
          [1, 0] 8)
      = manifestLines (canonicalConverted 2 (fun i => i == 0)) ∧
    canonicalConverted 2 (fun i => i == 0) = [("temp_clip_0.mp4")] := by
  have h := c8_converted_order [("x.mp4"), ("y.mp4")] (fun i => i == 0) [1, 0] 8
    (by decide)
  exact ⟨h.1, h.2, by decide⟩

theorem poolReachable_card_le (k : ℕ) (s : PoolState)
    (h : poolReachable k s) : s.running.card ≤ k := by
  induction h with
  | refl => simp
  | tail _ hstep ih =>
    cases hstep with
    | start i _ hi hk =>
      refine le_trans (Finset.card_insert_le _ _) ?_
      omega
    | finish i _ hi =>
      exact le_trans (Finset.card_erase_le) ih

/-- C7: in every reachable state of a bounded pool with bound `k` at most
`k` encoder invocations run concurrently, and the background-generation
pipeline instantiates that bound as the minimum of 8 and the number of
selected clips. -/
theorem c7_bounded_concurrency (k : ℕ) (s : PoolState)
    (h : poolReachable k s) (env : Env) (d : ℚ) :
    s.running.card ≤ k ∧
    (combine_videos_run env d).poolBound = min 8 (cliSelected env d).length := by
  refine ⟨poolReachable_card_le k s h, ?_⟩
  by_cases hsel : cliSelected env d = []
  · simp [combine_videos_run, hsel]
  · by_cases hconv : cliConverted env d = []
    · simp [combine_videos_run, hsel, hconv]
    · simp [combine_videos_run, hsel, hconv]

/-- C7 witness: the idle pool with bound 2, and a run over an empty clips
directory. -/
theorem c7_bounded_concurrency_witness :
    (⟨∅⟩ : PoolState).running.card ≤ 2 ∧
    (combine_videos_run ⟨true, some 5, true, [], fun _ => true, [], 0, some 5, 0⟩ 5).poolBound
      = min 8
          (cliSelected ⟨true, some 5, true, [], fun _ => true, [], 0, some 5, 0⟩ 5).length :=
  c7_bounded_concurrency 2 ⟨∅⟩ Relation.ReflTransGen.refl
    ⟨true, some 5, true, [], fun _ => true, [], 0, some 5, 0⟩ 5

theorem pickFresh_mono (rand : ℕ → ℕ) (used : List ℕ) :
    ∀ (f f' idx : ℕ) (x : ℕ × ℕ), f ≤ f' →
      pickFresh rand used f idx = some x →
      pickFresh rand used f' idx = some x := by
  intro f
  induction f with
  | zero =>
    intro f' idx x _ h
    simp [pickFresh] at h
  | succ f ih =>
    intro f' idx x hle h
    cases f' with
    | zero => omega
    | succ f' =>
      simp only [pickFresh] at h ⊢
      by_cases hr : randintAt rand idx ∈ used
      · rw [if_pos hr] at h ⊢
        exact ih f' (idx + 1) x (by omega) h
      · rw [if_neg hr] at h ⊢
        exact h

theorem pickFresh_sound (rand : ℕ → ℕ) (used : List ℕ) :
    ∀ (f idx r idx2 : ℕ), pickFresh rand used f idx = some (r, idx2) →
      r ∉ used ∧ 1 ≤ r ∧ r ≤ 99 := by
  intro f
  induction f with
  | zero =>
    intro idx r idx2 h
    simp [pickFresh] at h
  | succ f ih =>
    intro idx r idx2 h
    simp only [pickFresh] at h
    by_cases hr : randintAt rand idx ∈ used
    · rw [if_pos hr] at h
      exact ih (idx + 1) r idx2 h
    · rw [if_neg hr] at h
      obtain ⟨h1, _⟩ := Prod.mk.injEq .. ▸ Option.some.injEq .. ▸ h
      subst h1
      refine ⟨hr, ?_, ?_⟩
      · simp [randintAt]
      · have : rand idx % 99 < 99 := Nat.mod_lt _ (by omega)
        simp only [randintAt]
        omega

theorem pickFresh_complete (rand : ℕ → ℕ) (used : List ℕ) :
    ∀ (kgap idx : ℕ),
      (∃ j, idx ≤ j ∧ j ≤ idx + kgap ∧ randintAt rand j ∉ used) →
      ∃ f r idx2, pickFresh rand used f idx = some (r, idx2) := by
  intro kgap
  induction kgap with
  | zero =>
    rintro idx ⟨j, h1, h2, h3⟩
    have hj : j = idx := by omega
    subst hj
    exact ⟨1, randintAt rand j, j + 1, by simp [pickFresh, h3]⟩
  | succ kgap ih =>
    rintro idx ⟨j, h1, h2, h3⟩
    by_cases hr : randintAt rand idx ∈ used
    · have hj : j ≠ idx := by
        rintro rfl
        exact h3 hr
      obtain ⟨f, r, idx2, hf⟩ := ih (idx + 1) ⟨j, by omega, by omega, h3⟩
      refine ⟨f + 1, r, idx2, ?_⟩
      simp only [pickFresh]
      rw [if_pos hr]
      exact hf
    · refine ⟨1, randintAt rand idx, idx + 1, ?_⟩
      simp only [pickFresh]
      rw [if_neg hr]

theorem exists_fresh (used : List ℕ) (hnodup : used.Nodup)
    (hlen : used.length < 99) :
    ∃ v, 1 ≤ v ∧ v ≤ 99 ∧ v ∉ used := by
  by_contra h
  push_neg at h
  have hsubset : Finset.Icc 1 99 ⊆ used.toFinset := by
    intro v hv
    rcases Finset.mem_Icc.mp hv with ⟨h1, h2⟩
    exact List.mem_toFinset.mpr (h v h1 h2)
  have hcard := Finset.card_le_card hsubset
  rw [Nat.card_Icc] at hcard
  have htf : used.toFinset.card = used.length :=
    List.toFinset_card_of_nodup hnodup
  omega

theorem pickFresh_exists (rand : ℕ → ℕ) (hfair : FairStream rand)
    (used : List ℕ) (hnodup : used.Nodup) (hlen : used.length < 99)
    (idx : ℕ) :
    ∃ f r idx2, pickFresh rand used f idx = some (r, idx2) := by
  obtain ⟨v, h1, h2, h3⟩ := exists_fresh used hnodup hlen
  obtain ⟨j, hj1, hj2⟩ := hfair v h1 h2 idx
  exact pickFresh_complete rand used (j - idx) idx
    ⟨j, hj1, by omega, by rw [hj2]; exact h3⟩

theorem genVarsAux_mono (rand : ℕ → ℕ) :
    ∀ (cnt i idx : ℕ) (used : List ℕ) (f f' : ℕ) (l : List (String × ℕ)),
      f ≤ f' →
      genVarsAux rand f cnt i idx used = some l →
      genVarsAux rand f' cnt i idx used = some l := by
  intro cnt
  induction cnt with
  | zero =>
    intro i idx used f f' l _ h
    simpa [genVarsAux] using h
  | succ cnt ih =>
    intro i idx used f f' l hle h
    simp only [genVarsAux] at h ⊢
    cases hp : pickFresh rand used f idx with
    | none => rw [hp] at h; cases h
    | some x =>
      obtain ⟨r, idx2⟩ := x
      rw [hp] at h
      rw [pickFresh_mono rand used f f' idx (r, idx2) hle hp]
      obtain ⟨rest, hrest, hl⟩ := Option.map_eq_some'.mp h
      show Option.map (fun rest => (varName i, r) :: rest)
        (genVarsAux rand f' cnt (i + 1) idx2 (r :: used)) = some l
      rw [ih (i + 1) idx2 (r :: used) f f' rest hle hrest]
      simpa using hl

/-- Under a fair stream the generation loop succeeds for some fuel, and
its result has the keys `var_i .. var_(i+cnt-1)` in order and fresh,
pairwise-distinct values in 1..99. -/
theorem genVarsAux_exists (rand : ℕ → ℕ) (hfair : FairStream rand) :
    ∀ (cnt i idx : ℕ) (used : List ℕ),
      used.Nodup →
      used.length + cnt ≤ 99 →
      ∃ (f : ℕ) (l : List (String × ℕ)),
        genVarsAux rand f cnt i idx used = some l ∧
        l.map Prod.fst = (List.range' i cnt).map varName ∧
        (l.map Prod.snd).Nodup ∧
        (∀ x ∈ l.map Prod.snd, 1 ≤ x ∧ x ≤ 99) ∧
        (∀ x ∈ l.map Prod.snd, x ∉ used) := by
  intro cnt
  induction cnt with
  | zero =>
    intro i idx used _ _
    exact ⟨0, [], by simp [genVarsAux]⟩
  | succ cnt ih =>
    intro i idx used hnodup hlen
    obtain ⟨f1, r, idx2, hpick⟩ := pickFresh_exists rand hfair used hnodup
      (by omega) idx
    obtain ⟨hrused, hr1, hr99⟩ := pickFresh_sound rand used f1 idx r idx2 hpick
    obtain ⟨f2, rest, hrest, hkeys, hnd, hbnd, hfresh⟩ :=
      ih (i + 1) idx2 (r :: used) (List.nodup_cons.mpr ⟨hrused, hnodup⟩)
        (by simp only [List.length_cons]; omega)
    refine ⟨max f1 f2, (varName i, r) :: rest, ?_, ?_, ?_, ?_, ?_⟩
    · simp only [genVarsAux]
      rw [pickFresh_mono rand used f1 (max f1 f2) idx (r, idx2)
        (le_max_left f1 f2) hpick]
      show Option.map (fun rest => (varName i, r) :: rest)
        (genVarsAux rand (max f1 f2) cnt (i + 1) idx2 (r :: used))
          = some ((varName i, r) :: rest)
      rw [genVarsAux_mono rand cnt (i + 1) idx2 (r :: used) f2 (max f1 f2)
        rest (le_max_right f1 f2) hrest]
      rfl
    · simp [List.range'_succ, hkeys]
    · refine List.nodup_cons.mpr ⟨?_, hnd⟩
      intro hrmem
      exact (hfresh r hrmem) (List.mem_cons_self r used)
    · intro x hx
      rcases List.mem_cons.mp hx with h | h
      · subst h; exact ⟨hr1, hr99⟩
      · exact hbnd x h
    · intro x hx
      rcases List.mem_cons.mp hx with h | h
      · subst h; exact hrused
      · intro hxu
        exact (hfresh x h) (List.mem_cons_of_mem r hxu)

/-- C9: for an integer argument between 1 and 99 and a fair random
stream, `generate_variables` terminates (some finite fuel suffices) and
returns a dictionary whose keys are exactly `var_1 .. var_num_vars` in
insertion order and whose values are pairwise-distinct integers between 1
and 99; for an integer argument below 1 or above 99, and for a
non-integer argument, it raises `ValueError` instead. -/
theorem c9_generate_variables (v : PyVal) (rand : ℕ → ℕ)
    (hfair : FairStream rand) :
    (∀ n : ℤ, v = PyVal.int n → 1 ≤ n → n ≤ 99 →
      ∃ (f : ℕ) (l : List (String × ℕ)),
        generate_variables v rand f = some (Except.ok l) ∧
        l.map Prod.fst = (List.range' 1 n.toNat).map varName ∧
        (l.map Prod.snd).Nodup ∧
        ∀ x ∈ l.map Prod.snd, 1 ≤ x ∧ x ≤ 99) ∧
    (∀ (n : ℤ) (f : ℕ), v = PyVal.int n → (n < 1 ∨ 99 < n) →
      ∃ msg, generate_variables v rand f = some (Except.error msg)) ∧
    (∀ f : ℕ, v = PyVal.nonInt →
      ∃ msg, generate_variables v rand f = some (Except.error msg)) := by
  refine ⟨?_, ?_, ?_⟩
  · rintro n rfl h1 h99
    obtain ⟨f, l, hgen, hkeys, hnd, hbnd, _⟩ :=
      genVarsAux_exists rand hfair n.toNat 1 0 [] List.nodup_nil
        (by simp only [List.length_nil]; omega)
    refine ⟨f, l, ?_, hkeys, hnd, hbnd⟩
    simp only [generate_variables]
    rw [if_neg (by omega), if_neg (by omega), hgen]
    rfl
  · rintro n f rfl hout
    rcases hout with h | h
    · refine ⟨("num_vars must be a positive integer"), ?_⟩
      simp only [generate_variables]
      rw [if_pos h]
    · refine ⟨("num_vars cannot be greater than 99, to ensure unique numbers between 1 and 99"), ?_⟩
      simp only [generate_variables]
      rw [if_neg (by omega), if_pos h]
  · rintro f rfl
    exact ⟨("num_vars must be a positive integer"), rfl⟩

/-- Helper for the C9 witness: the identity stream draws every value of
1..99 at arbitrarily late indices. -/
theorem fair_id_stream : FairStream (fun j => j) := by
  intro v h1 h2 m
  refine ⟨99 * (m + 1) + (v - 1), by omega, ?_⟩
  simp only [randintAt]
  omega

/-- C9 witness: three variables drawn from the identity stream; a
concrete run with fuel 5 yields `var_1 ↦ 1, var_2 ↦ 2, var_3 ↦ 3`. -/
theorem c9_generate_variables_witness :
    (∃ (f : ℕ) (l : List (String × ℕ)),
      generate_variables (PyVal.int 3) (fun j => j) f = some (Except.ok l) ∧
      l.map Prod.fst = (List.range' 1 (3 : ℤ).toNat).map varName ∧
      (l.map Prod.snd).Nodup ∧
      ∀ x ∈ l.map Prod.snd, 1 ≤ x ∧ x ≤ 99) ∧
    generate_variables (PyVal.int 3) (fun j => j) 5
      = some (Except.ok [(("var_1"), 1), (("var_2"), 2), (("var_3"), 3)]) := by
  constructor
  · exact (c9_generate_variables (PyVal.int 3) (fun j => j) fair_id_stream).1
      3 rfl (by norm_num) (by norm_num)
  · rfl

